import Mathlib

/-!
Shallow embedding of the retrieval-and-answer engine of the HR-Mood-Manager
repository (files `api_server.py`, `rag_enhanced.py`, `database.py`), together
with proofs settling the frozen claims about its specification.

The embedding models the cache-only capability tier (`CacheOnly`): the vector
index and embedder are absent (`self.collection = None`, `self.embedder =
None`), which is the tier every claim under scrutiny exercises.  Mood records
are Lean structures, the external Mood Record Store read is an `Except` value
(`Except.error` models a raised exception inside `database.get_mood_records`),
Python dicts built by repeated `d[k] = d.get(k, 0) + 1` are association lists
in insertion order, and Python's `max(d, key=d.get)` is a left scan keeping
the first maximum.  Confidence values and percentages are rationals; Python's
`"%.1f"` float formatting is rendered by exact rational rounding (no claim
depends on the float rounding mode).
-/

namespace MoodRAG

/-! ### Strings: lower-casing and substring search

`question.lower()` and Python's `kw in q_lower` substring test.  `Char.toLower`
matches Python for the ASCII questions and keywords the engine compares.
-/

def lowerAscii (s : String) : String :=
  String.mk (s.data.map Char.toLower)

/-- `subList needle hay = true` iff `needle` occurs as a contiguous sublist of
`hay`; this is Python's `needle in hay` on strings. -/
def subList (needle : List Char) : List Char → Bool
  | [] => needle.isEmpty
  | c :: rest => needle.isPrefixOf (c :: rest) || subList needle rest

def strContainsSub (hay needle : String) : Bool :=
  subList needle.data hay.data

/-- `any(kw in hay for kw in kws)`. -/
def containsAny (hay : String) (kws : List String) : Bool :=
  kws.any (fun kw => strContainsSub hay kw)

/-! ### Intent classification (`EmotionRAG.query`, api_server.py lines 206-265)

The source dispatches on the lower-cased question through a fixed
`if/elif/.../else` chain; each arm's test is reproduced below in the source's
order.
-/

inductive Intent where
  | mostCommon
  | recent
  | pattern
  | specificEmotion
  | generalMood
  | negative
  | groupHealth
  | generic
deriving DecidableEq, Repr

def mostCommonKeywords : List String := ["most", "common", "frequent"]
def recentKeywords : List String := ["recent", "latest", "last"]
def patternKeywords : List String := ["pattern", "trend"]
def knownEmotions : List String :=
  ["happy", "sad", "angry", "fear", "surprise", "disgust", "neutral"]
def generalMoodKeywords : List String := ["feel", "emotion", "mood"]
def negativeKeywords : List String := ["struggling", "concern", "negative"]
def groupHealthKeywords : List String := ["team", "department", "organizational"]

/-- The `if/elif` chain of `EmotionRAG.query` (api_server.py lines 208-265),
read off the source answer branches: each branch test in order. -/
def classify (question : String) : Intent :=
  let ql := lowerAscii question
  if containsAny ql mostCommonKeywords then .mostCommon
  else if containsAny ql recentKeywords then .recent
  else if containsAny ql patternKeywords then .pattern
  else if containsAny ql knownEmotions then .specificEmotion
  else if containsAny ql generalMoodKeywords then .generalMood
  else if containsAny ql negativeKeywords then .negative
  else if containsAny ql groupHealthKeywords then .groupHealth
  else .generic

/-- The spec's intent table (§4.4): the fixed priority order as an ordered
list of keyword families, first match wins, default `Generic`.  Written from
the spec's words, to be compared with `classify` (from the source). -/
def intentFamilies : List (Intent × List String) :=
  [(.mostCommon, mostCommonKeywords),
   (.recent, recentKeywords),
   (.pattern, patternKeywords),
   (.specificEmotion, knownEmotions),
   (.generalMood, generalMoodKeywords),
   (.negative, negativeKeywords),
   (.groupHealth, groupHealthKeywords)]

def classifySpec (question : String) : Intent :=
  match intentFamilies.find? (fun f => containsAny (lowerAscii question) f.2) with
  | some f => f.1
  | none => .generic

/-! ### Python dicts and `max(d, key=d.get)`

`emotion_counts[e] = emotion_counts.get(e, 0) + 1` over a CPython dict keeps
keys in insertion order of first occurrence; the dict is an association list,
a new key is appended at the end.  `max(d, key=d.get)` scans the keys left to
right and replaces the current maximum only on a strictly greater value, so
the first key attaining the maximum wins.
-/

section Dicts

variable {α : Type*} [DecidableEq α]

/-- One `d[e] = d.get(e, 0) + 1` step. -/
def bump (acc : List (α × Nat)) (e : α) : List (α × Nat) :=
  match acc with
  | [] => [(e, 1)]
  | p :: rest => if p.1 = e then (p.1, p.2 + 1) :: rest else p :: bump rest e

/-- The `for e in emotions: emotion_counts[e] = emotion_counts.get(e, 0) + 1`
loop. -/
def emotionCounts (es : List α) : List (α × Nat) :=
  es.foldl bump []

/-- `d[e] = d.get(e, 0) + v` for rational values (`confidence_sum`). -/
def bumpBy (acc : List (α × ℚ)) (e : α) (v : ℚ) : List (α × ℚ) :=
  match acc with
  | [] => [(e, v)]
  | p :: rest => if p.1 = e then (p.1, p.2 + v) :: rest else p :: bumpBy rest e v

/-- `d.get(k, 0)`. -/
def dget : List (α × Nat) → α → Nat
  | [], _ => 0
  | p :: rest, k => if p.1 = k then p.2 else dget rest k

/-- `d.get(k, 0)` for rational values. -/
def qget : List (α × ℚ) → α → ℚ
  | [], _ => 0
  | p :: rest, k => if p.1 = k then p.2 else qget rest k

/-- The scanning loop of Python's `max(d, key=d.get)`: the current maximum is
replaced only by a strictly greater value. -/
def pyGo (cur : α × Nat) : List (α × Nat) → α × Nat
  | [] => cur
  | q :: rest => pyGo (if cur.2 < q.2 then q else cur) rest

/-- `max(d, key=d.get)` over the dict's key order, `none` on an empty dict
(where Python's `max` would raise, always guarded in the source by
`if emotion_counts:`). -/
def pyMax : List (α × Nat) → Option (α × Nat)
  | [] => none
  | p :: rest => some (pyGo p rest)

end Dicts

section SortDesc

variable {α : Type*} {β : Type*} [LinearOrder β]

/-- Insert after all entries with a value `≥ p`'s: the stable placement of
`sorted(..., key=lambda x: x[1], reverse=True)`. -/
def insertDesc (p : α × β) : List (α × β) → List (α × β)
  | [] => [p]
  | q :: rest => if q.2 < p.2 then p :: q :: rest else q :: insertDesc p rest

/-- Stable sort by value, descending: Python's
`sorted(d.items(), key=lambda x: x[1], reverse=True)`. -/
def sortDesc (l : List (α × β)) : List (α × β) :=
  l.foldl (fun acc p => insertDesc p acc) []

end SortDesc

section UniqLeft

variable {α : Type*} [DecidableEq α]

/-- The distinct elements of a list in order of first occurrence: the key
order of a CPython dict filled left to right, and the model of
`list(set(...))` (whose CPython iteration order is implementation-defined;
no claim depends on it). -/
def uniqLeft : List α → List α
  | [] => []
  | e :: rest => e :: (uniqLeft rest).filter (fun x => x != e)

end UniqLeft

/-! ### Mood records and the Mood Record Store

`database.get_mood_records` returns rows newest first (`ORDER BY mr.timestamp
DESC`), each denormalized with `full_name` and `department`.  A store read
that raises inside the `try:` of a rebuild is `Except.error ()`.
-/

structure MoodRecord where
  user_id : String
  emotion : String
  timestamp : String
  confidence : ℚ
  full_name : String
  department : String
deriving DecidableEq, Repr

abbrev StoreRead : Type := Except Unit (List MoodRecord)

def emotionsOf (metas : List MoodRecord) : List String :=
  metas.map (·.emotion)

/-- `rec['timestamp'][:19].replace('T', ' ')`. -/
def fmtTime (ts : String) : String :=
  String.mk ((ts.data.take 19).map (fun c => if c = 'T' then ' ' else c))

/-- Renders a non-negative rational the way the source's `f"{x:.1f}"` renders
the corresponding float (exact half-up rounding to one decimal; no claim
depends on the float rounding mode). -/
def fmt1 (q : ℚ) : String :=
  let n : ℤ := ⌊q * 10 + 1 / 2⌋
  toString (n / 10) ++ "." ++ toString (n % 10)

/-! ### Answer synthesis (`EmotionRAG.query` branch bodies, api_server.py) -/

def ansMostCommon (metas : List MoodRecord) : String :=
  match pyMax (emotionCounts (emotionsOf metas)) with
  | some p =>
      "Based on the records, '" ++ p.1 ++ "' is the most common emotion, appearing "
        ++ toString p.2 ++ " times in relevant data."
  | none => "No emotion patterns found."

def ansRecent (metas : List MoodRecord) : String :=
  match metas with
  | m :: _ =>
      "The most recent emotion detected was '" ++ m.emotion ++ "' at "
        ++ fmtTime m.timestamp ++ "."
  | [] => "No recent emotion data found."

def countsSummaryTimes (counts : List (String × Nat)) : String :=
  String.intercalate ", " (counts.map (fun p => p.1 ++ ": " ++ toString p.2 ++ " times"))

def ansPattern (metas : List MoodRecord) : String :=
  let counts := emotionCounts (emotionsOf metas)
  match pyMax counts with
  | some p =>
      "The emotional patterns show: " ++ countsSummaryTimes counts
        ++ ". This indicates varying emotional states with emphasis on " ++ p.1 ++ "."
  | none => "No emotional patterns found."

def ansSpecific (question : String) (metas : List MoodRecord) : String :=
  let ql := lowerAscii question
  let targets := knownEmotions.filter (fun e => strContainsSub ql e)
  let counts := emotionCounts (emotionsOf metas)
  match targets with
  | [] => "No data found for the specified emotion."
  | t :: _ =>
      if counts.isEmpty then "No data found for the specified emotion."
      else
        "'" ++ t ++ "' appears " ++ toString (dget counts t)
          ++ " times in the relevant records, suggesting it's "
          ++ (if 2 < dget counts t then "a significant" else "a minor")
          ++ " part of the emotional pattern."

def countsSummaryX (counts : List (String × Nat)) : String :=
  String.intercalate ", "
    ((sortDesc counts).map (fun p => p.1 ++ " (" ++ toString p.2 ++ "x)"))

def ansGeneralMood (metas : List MoodRecord) : String :=
  let counts := emotionCounts (emotionsOf metas)
  match pyMax counts with
  | some p =>
      "Overall emotional state shows: " ++ countsSummaryX counts
        ++ ". The dominant emotion is " ++ p.1 ++ "."
  | none => "No emotional data available."

def negativeEmotions : List String := ["sad", "angry", "fear", "disgust"]

def ansNegative (metas : List MoodRecord) : String :=
  let counts := emotionCounts (emotionsOf metas)
  let negCount := (negativeEmotions.map (dget counts)).sum
  if 0 < negCount then
    "Found " ++ toString negCount
      ++ " negative emotion instances. Consider reaching out to affected employees for support."
  else "No concerning emotional patterns detected."

def ansGroupHealth (metas : List MoodRecord) : String :=
  let counts := emotionCounts (emotionsOf metas)
  if counts.isEmpty then "No team emotional data available."
  else
    let positive := dget counts "happy" + dget counts "neutral"
    let total := (counts.map Prod.snd).sum
    let pct : ℚ := if 0 < total then (positive : ℚ) / total * 100 else 0
    "Team emotional health: " ++ countsSummaryX counts
      ++ ". Overall positivity: " ++ fmt1 pct ++ "%."

def ansGeneric (metas : List MoodRecord) : String :=
  let counts := emotionCounts (emotionsOf metas)
  match pyMax counts with
  | some p =>
      "Based on relevant emotion records: " ++ countsSummaryX counts
        ++ ". The dominant emotion in this context is " ++ p.1 ++ "."
  | none => "No relevant emotion data found for your query."

/-- The branch bodies of `EmotionRAG.query`, dispatched through the chain's
conditions (`classify` reproduces the chain's tests in the chain's order). -/
def answerFor (question : String) (metas : List MoodRecord) : String :=
  match classify question with
  | .mostCommon => ansMostCommon metas
  | .recent => ansRecent metas
  | .pattern => ansPattern metas
  | .specificEmotion => ansSpecific question metas
  | .generalMood => ansGeneralMood metas
  | .negative => ansNegative metas
  | .groupHealth => ansGroupHealth metas
  | .generic => ansGeneric metas

/-! ### Engine state, rebuild, and the query pipeline -/

structure RagState where
  cache : List MoodRecord
deriving DecidableEq

/-- `EmotionRAG.build_from_database` (api_server.py lines 92-156) in the
cache-only tier: a failed store read is caught and answered with
`len(self.records_cache) > 0` ("Still return True since we have cache"); an
empty store empties the cache and returns `False`; otherwise the cache is
replaced and the call returns `True`. -/
def buildApi (db : StoreRead) (st : RagState) : RagState × Bool :=
  match db with
  | .ok recs => if recs.isEmpty then (⟨[]⟩, false) else (⟨recs⟩, true)
  | .error _ => (st, decide (0 < st.cache.length))

/-- `EnhancedEmotionRAG.build_from_database` (rag_enhanced.py lines 42-52):
success stores the records and returns `len(mood_records) > 0`; a failed read
is caught, the cache is set to `[]`, and `False` is returned. -/
def buildEnh (db : StoreRead) (_st : RagState) : RagState × Bool :=
  match db with
  | .ok recs => (⟨recs⟩, decide (0 < recs.length))
  | .error _ => (⟨[]⟩, false)

structure QueryOutcome where
  state : RagState
  answer : String
  rebuilds : Nat
deriving DecidableEq

def msgNotAvailable : String :=
  "❌ RAG insights not available yet. No emotion data found. Please record some emotions first."

def msgNoData : String := "❌ No emotion data available to query."

def msgNoUser (uid : String) : String :=
  "No emotion data found for user " ++ uid ++ "."

/-- The body of `EmotionRAG.query` after the implicit-rebuild gate: build
`metas` from the cache, apply the `user_id` filter, then answer. -/
def queryBody (cache : List MoodRecord) (question : String)
    (userId : Option String) : String :=
  let metas := cache
  if metas.isEmpty then msgNoData
  else
    match userId with
    | some uid =>
        let filtered := metas.filter (fun r => r.user_id == uid)
        if filtered.isEmpty then msgNoUser uid
        else answerFor question filtered
    | none => answerFor question metas

/-- `EmotionRAG.query` (api_server.py lines 158-269) in the cache-only tier:
an empty cache triggers exactly one implicit `build_from_database`;
`rebuilds` counts the store reads the call performs. -/
def queryApi (db : StoreRead) (st : RagState) (question : String)
    (userId : Option String) : QueryOutcome :=
  if st.cache.isEmpty then
    let b := buildApi db st
    if b.2 then ⟨b.1, queryBody b.1.cache question userId, 1⟩
    else ⟨b.1, msgNotAvailable, 1⟩
  else ⟨st, queryBody st.cache question userId, 0⟩

/-! ### The statistics aggregator (`EnhancedEmotionRAG.get_emotion_stats`) -/

structure EmotionStats where
  total_records : Nat
  emotion_counts : List (String × Nat)
  emotion_distribution : List (String × ℚ)
  average_confidence : List (String × ℚ)
  most_common : Option String
deriving DecidableEq

/-- `get_emotion_stats` (rag_enhanced.py lines 54-82): `none` models the `{}`
returned for an empty cache. -/
def getEmotionStats (cache : List MoodRecord) : Option EmotionStats :=
  if cache.isEmpty then none
  else
    let counts := emotionCounts (emotionsOf cache)
    let csum := cache.foldl (fun d r => bumpBy d r.emotion r.confidence) []
    some
      { total_records := cache.length
        emotion_counts := counts
        emotion_distribution :=
          counts.map (fun p => (p.1, (p.2 : ℚ) / cache.length * 100))
        average_confidence :=
          counts.map (fun p => (p.1, qget csum p.1 / (p.2 : ℚ)))
        most_common := (pyMax counts).map Prod.fst }

/-! ### `EnhancedEmotionRAG.query_rule_based` (rag_enhanced.py lines 170-217) -/

def queryEnh (cache : List MoodRecord) (question : String) : String :=
  if cache.isEmpty then "No emotion data available. Please add mood records first."
  else
    let counts := emotionCounts (emotionsOf cache)
    let total := cache.length
    let dist := counts.map (fun p => (p.1, (p.2 : ℚ) / total * 100))
    let ql := lowerAscii question
    if containsAny ql ["most", "common", "frequent"] then
      let most := ((pyMax counts).map Prod.fst).getD "unknown"
      "The most common emotion is '" ++ most ++ "' with "
        ++ toString (dget counts most) ++ " occurrences ("
        ++ fmt1 (qget dist most) ++ "% of all records)."
    else if containsAny ql ["recent", "latest", "last"] then
      match cache.getLast? with
      | some latest =>
          "The most recent emotion detected was '" ++ latest.emotion ++ "' for "
            ++ latest.user_id ++ " at " ++ latest.timestamp ++ "."
      | none => "No recent records found."
    else if containsAny ql ["trend", "pattern", "change"] then
      let lastTen := cache.drop (cache.length - 10)
      "Recent emotional patterns show variety: "
        ++ String.intercalate ", " (uniqLeft (emotionsOf lastTen))
        ++ ". This indicates diverse emotional states among employees."
    else if containsAny ql ["stress", "anxiety", "worry"] then
      let negative := dget counts "Sad" + dget counts "Angry"
      let pct : ℚ := if 0 < total then (negative : ℚ) / total * 100 else 0
      "Negative emotions (Sad/Angry) account for " ++ fmt1 pct
        ++ "% of records. HR should consider support initiatives."
    else if containsAny ql ["happy", "positive", "good"] then
      let positive := dget counts "Happy"
      let pct : ℚ := if 0 < total then (positive : ℚ) / total * 100 else 0
      "Positive emotions (Happy) represent " ++ fmt1 pct ++ "% of records. ['"
        ++ (if 50 < pct then "Consider ways to sustain this positive trend."
            else "There is room to improve employee satisfaction.") ++ "']"
    else
      let summary := String.intercalate ", "
        (((sortDesc counts).take 3).map (fun p => p.1 ++ " (" ++ toString p.2 ++ ")"))
      let most := ((pyMax counts).map Prod.fst).getD "diverse"
      "Based on " ++ toString total ++ " mood records: " ++ summary
        ++ ". The overall emotional landscape shows " ++ most
        ++ " emotions being most prevalent."

/-! ### Insight report distribution bars

`EmotionRAG.get_insights` (api_server.py lines 315-318) renders
`"█" * min(int(pct/3), 20)` per emotion, sorted by count descending;
`EnhancedEmotionRAG.get_insights` (rag_enhanced.py lines 239-246) renders
`"█" * int(pct / 5)`, sorted by percentage descending.
-/

structure DistLine where
  emotion : String
  count : Nat
  pct : ℚ
  bar : String
deriving DecidableEq

def barApi (pct : ℚ) : String :=
  String.mk (List.replicate (min (Int.toNat ⌊pct / 3⌋) 20) '█')

def insightsDistApi (records : List MoodRecord) : List DistLine :=
  let n := records.length
  (sortDesc (emotionCounts (emotionsOf records))).map
    (fun p =>
      { emotion := p.1, count := p.2, pct := (p.2 : ℚ) / n * 100
        bar := barApi ((p.2 : ℚ) / n * 100) })

structure EnhDistLine where
  emotion : String
  pct : ℚ
  bar : String
deriving DecidableEq

def barEnh (pct : ℚ) : String :=
  String.mk (List.replicate (Int.toNat ⌊pct / 5⌋) '█')

def insightsDistEnh (records : List MoodRecord) : List EnhDistLine :=
  let n := records.length
  let dist := (emotionCounts (emotionsOf records)).map
    (fun p => (p.1, (p.2 : ℚ) / n * 100))
  (sortDesc dist).map (fun p => { emotion := p.1, pct := p.2, bar := barEnh p.2 })

/-- The keys of a dict, in insertion order. -/
def keys {α : Type*} (acc : List (α × Nat)) : List α := acc.map Prod.fst

/-! ### Concrete example inputs used by the claims -/

/-- A mood record as `get_mood_records` returns it; the newest event in the
two-record store below. -/
def happyRec : MoodRecord :=
  ⟨"u1", "happy", "2025-01-05T10:00:00", 90, "User One", "Eng"⟩

/-- An older record than `happyRec`. -/
def sadRec : MoodRecord :=
  ⟨"u2", "sad", "2025-01-01T09:00:00", 80, "User Two", "Ops"⟩

/-- The spec's `[happy×3, sad×2]` record set. -/
def records32 : List MoodRecord :=
  [happyRec, happyRec, happyRec, sadRec, sadRec]

/-- Ten records, 3 happy and 7 sad: distribution entries at exactly 30% and
70%. -/
def records37 : List MoodRecord :=
  List.replicate 3 happyRec ++ List.replicate 7 sadRec

/-- A two-record store enumeration, newest first (`ORDER BY timestamp DESC`). -/
def newestFirst : List MoodRecord := [happyRec, sadRec]

/-! ## Helper lemmas -/

section DictFacts

variable {α : Type*} [DecidableEq α]

theorem keys_bump (acc : List (α × Nat)) (a : α) :
    keys (bump acc a) = if a ∈ keys acc then keys acc else keys acc ++ [a] := by
  induction acc with
  | nil => simp [bump, keys]
  | cons p rest ih =>
    by_cases hp : p.1 = a
    · simp [bump, keys, hp]
    · have hap : a ≠ p.1 := Ne.symm hp
      have ih' : List.map Prod.fst (bump rest a) =
          if a ∈ List.map Prod.fst rest then List.map Prod.fst rest
          else List.map Prod.fst rest ++ [a] := by simpa [keys] using ih
      by_cases ha : a ∈ List.map Prod.fst rest
      · simp [bump, if_neg hp, keys, ih', ha, hap]
      · simp [bump, if_neg hp, keys, ih', ha, hap]

theorem bump_not_mem (acc : List (α × Nat)) (a : α) (h : a ∉ keys acc) :
    bump acc a = acc ++ [(a, 1)] := by
  induction acc with
  | nil => simp [bump]
  | cons p rest ih =>
    simp only [keys, List.map_cons, List.mem_cons, not_or] at h
    have hpa : ¬ p.1 = a := fun hh => h.1 hh.symm
    simp only [bump, if_neg hpa, List.cons_append]
    rw [ih (by simpa [keys] using h.2)]

theorem map_bump_id (l : List (α × Nat)) (a : α) (h : a ∉ keys l) :
    l.map (fun p => if p.1 = a then (p.1, p.2 + 1) else p) = l := by
  rw [show l = l.map id by simp]
  rw [List.map_map]
  apply List.map_congr_left
  intro p hp
  have : p.1 ≠ a := fun hpa => h (by simpa [keys, hpa.symm] using List.mem_map_of_mem Prod.fst hp)
  simp [this]

theorem bump_mem (acc : List (α × Nat)) (a : α) (hk : (keys acc).Nodup)
    (h : a ∈ keys acc) :
    bump acc a = acc.map (fun p => if p.1 = a then (p.1, p.2 + 1) else p) := by
  induction acc with
  | nil => simp [keys] at h
  | cons p rest ih =>
    simp only [keys, List.map_cons, List.nodup_cons] at hk
    by_cases hp : p.1 = a
    · simp only [bump, if_pos hp, List.map_cons, if_pos hp]
      rw [map_bump_id rest a (by rw [← hp]; exact fun hmem => hk.1 (by simpa [keys] using hmem))]
    · have ha : a ∈ keys rest := by
        simp only [keys, List.map_cons, List.mem_cons] at h
        exact h.resolve_left (fun hh => hp hh.symm)
      simp only [bump, if_neg hp, List.map_cons, if_neg hp]
      rw [ih (by simpa [keys] using hk.2) ha]

theorem sum_snd_bump (acc : List (α × Nat)) (e : α) :
    ((bump acc e).map Prod.snd).sum = ((acc.map Prod.snd).sum) + 1 := by
  induction acc with
  | nil => simp [bump]
  | cons p rest ih =>
    by_cases hp : p.1 = e
    · simp only [bump, if_pos hp, List.map_cons, List.sum_cons]
      omega
    · simp only [bump, if_neg hp, List.map_cons, List.sum_cons, ih]
      omega

theorem sum_snd_foldl (es : List α) :
    ∀ acc : List (α × Nat),
      ((es.foldl bump acc).map Prod.snd).sum = ((acc.map Prod.snd).sum) + es.length := by
  induction es with
  | nil => intro acc; simp
  | cons a rest ih =>
    intro acc
    rw [List.foldl_cons, ih (bump acc a), sum_snd_bump]
    simp; omega

theorem sum_snd_emotionCounts (es : List α) :
    (((emotionCounts es).map Prod.snd).sum) = es.length := by
  have := sum_snd_foldl es []
  simpa [emotionCounts] using this

end DictFacts

section UniqFacts

variable {α : Type*} [DecidableEq α]

theorem mem_uniqLeft (x : α) (l : List α) : x ∈ uniqLeft l ↔ x ∈ l := by
  induction l with
  | nil => simp [uniqLeft]
  | cons a t ih =>
    by_cases hxa : x = a
    · simp [uniqLeft, hxa]
    · simp [uniqLeft, List.mem_filter, bne_iff_ne, hxa, ih]

theorem uniqLeft_filter (p : α → Bool) (l : List α) :
    uniqLeft (l.filter p) = (uniqLeft l).filter p := by
  induction l with
  | nil => simp [uniqLeft]
  | cons a t ih =>
    by_cases hpa : p a = true
    · rw [List.filter_cons_of_pos hpa]
      simp only [uniqLeft]
      rw [ih, List.filter_cons_of_pos hpa]
      simp [List.filter_filter, Bool.and_comm]
    · rw [List.filter_cons_of_neg hpa]
      simp only [uniqLeft]
      rw [ih, List.filter_cons_of_neg hpa, List.filter_filter]
      apply List.filter_congr
      intro x _
      by_cases hx : x = a
      · subst hx
        simp [Bool.eq_false_iff.mpr hpa]
      · simp [hx]

theorem uniqLeft_pairwise (l : List α) :
    List.Pairwise (fun x y => l.indexOf x < l.indexOf y) (uniqLeft l) := by
  induction l with
  | nil => simp [uniqLeft]
  | cons a t ih =>
    simp only [uniqLeft]
    refine List.Pairwise.cons ?_ ?_
    · intro b hb
      obtain ⟨hbu, hbne⟩ := List.mem_filter.mp hb
      have hba : b ≠ a := by simpa using hbne
      rw [List.indexOf_cons_self, List.indexOf_cons_ne t (Ne.symm hba)]
      exact Nat.succ_pos _
    · have hp : List.Pairwise (fun x y => t.indexOf x < t.indexOf y)
          ((uniqLeft t).filter (fun x => x != a)) := (ih).filter _
      refine hp.imp_of_mem ?_
      intro x y hx hy hxy
      have hxa : x ≠ a := by simpa using (List.mem_filter.mp hx).2
      have hya : y ≠ a := by simpa using (List.mem_filter.mp hy).2
      rw [List.indexOf_cons_ne t (Ne.symm hxa), List.indexOf_cons_ne t (Ne.symm hya)]
      exact Nat.succ_lt_succ hxy

/-- The CPython dict loop in one formula: the counts dict holds the distinct
emotions in first-occurrence order, each mapped to its total count.
Generalized over the accumulator for the induction. -/
theorem foldl_bump_eq (es : List α) :
    ∀ acc : List (α × Nat), (keys acc).Nodup →
      es.foldl bump acc =
        acc.map (fun p => (p.1, p.2 + es.count p.1)) ++
        (uniqLeft (es.filter (fun e => !((keys acc).contains e)))).map
          (fun e => (e, es.count e)) := by
  induction es with
  | nil =>
    intro acc _
    simp [uniqLeft]
  | cons a rest ih =>
    intro acc hk
    rw [List.foldl_cons]
    by_cases ha : a ∈ keys acc
    · have hkeys : keys (bump acc a) = keys acc := by rw [keys_bump]; simp [ha]
      rw [ih (bump acc a) (by rw [hkeys]; exact hk)]
      rw [hkeys]
      congr 1
      · rw [bump_mem acc a hk ha, List.map_map]
        apply List.map_congr_left
        intro p _
        by_cases hpa : p.1 = a
        · have h2 : p.2 + 1 + List.count p.1 rest = p.2 + List.count p.1 (a :: rest) := by
            rw [hpa, List.count_cons_self]
            omega
          simp only [Function.comp, if_pos hpa, h2]
        · simp only [Function.comp, if_neg hpa]
          rw [List.count_cons_of_ne hpa]
      · rw [@List.filter_cons_of_neg α (fun e => !((keys acc).contains e)) a rest
          (by simp [ha])]
        apply List.map_congr_left
        intro e he
        have hemem := (mem_uniqLeft e _).mp he
        have hene : e ≠ a := by
          intro hea
          subst hea
          have := (List.mem_filter.mp hemem).2
          simp [ha] at this
        rw [List.count_cons_of_ne hene]
    · have hb2 : bump acc a = acc ++ [(a, 1)] := bump_not_mem acc a ha
      have hkeys : keys (bump acc a) = keys acc ++ [a] := by rw [keys_bump]; simp [ha]
      have hknodup : (keys (bump acc a)).Nodup := by
        rw [hkeys]
        exact hk.append (List.nodup_singleton a) (by simpa using ha)
      rw [ih (bump acc a) hknodup]
      rw [hb2]
      rw [show keys (acc ++ [(a, 1)]) = keys acc ++ [a] from by simp [keys]]
      rw [@List.filter_cons_of_pos α (fun e => !((keys acc).contains e)) a rest
        (by simp [ha])]
      simp only [uniqLeft]
      rw [← uniqLeft_filter, List.filter_filter]
      have hpred : (rest.filter fun x => (x != a) && !((keys acc).contains x)) =
          (rest.filter fun e => !((keys acc ++ [a]).contains e)) := by
        apply List.filter_congr
        intro e _
        by_cases hea : e = a
        · subst hea; simp
        · by_cases hem : e ∈ keys acc
          · simp [hea, hem]
          · simp [hea, hem]
      rw [hpred, List.map_append, List.append_assoc]
      congr 1
      · apply List.map_congr_left
        intro p hp
        have hpne : p.1 ≠ a := by
          intro hh
          exact ha (hh ▸ (List.mem_map_of_mem Prod.fst hp))
        rw [List.count_cons_of_ne hpne]
      · simp only [List.map_cons, List.map_nil, List.singleton_append]
        congr 1
        · rw [List.count_cons_self]
          simp [Nat.add_comm]
        · apply List.map_congr_left
          intro e he
          have hemem := (mem_uniqLeft e _).mp he
          have hene : e ≠ a := by
            intro hea
            subst hea
            have := (List.mem_filter.mp hemem).2
            simp at this
          rw [List.count_cons_of_ne hene]

/-- `emotion_counts` in closed form: distinct emotions in first-occurrence
order, each with its count. -/
theorem emotionCounts_eq (es : List α) :
    emotionCounts es = (uniqLeft es).map (fun e => (e, es.count e)) := by
  have h := foldl_bump_eq es [] (by simp [keys])
  simpa [emotionCounts, keys, List.filter_true] using h

end UniqFacts

section PyMaxFacts

variable {α : Type*}

/-- What the scanning loop of `max(d, key=d.get)` guarantees: the result
bounds every scanned value and the initial value, and is either the initial
value itself or the first list element strictly exceeding everything before
it. -/
theorem pyGo_spec (l : List (α × Nat)) :
    ∀ cur : α × Nat,
      (∀ q ∈ l, q.2 ≤ (pyGo cur l).2) ∧ cur.2 ≤ (pyGo cur l).2 ∧
      (pyGo cur l = cur ∨
        ∃ l1 l2, l = l1 ++ (pyGo cur l) :: l2 ∧ cur.2 < (pyGo cur l).2 ∧
          ∀ x ∈ l1, x.2 < (pyGo cur l).2) := by
  induction l with
  | nil => intro cur; simp [pyGo]
  | cons q rest ih =>
    intro cur
    by_cases hlt : cur.2 < q.2
    · have hcomp : pyGo cur (q :: rest) = pyGo q rest := by simp [pyGo, hlt]
      obtain ⟨hall, hcur, hstruct⟩ := ih q
      rw [hcomp]
      refine ⟨?_, le_of_lt (lt_of_lt_of_le hlt hcur), ?_⟩
      · intro x hx
        rcases List.mem_cons.mp hx with rfl | hx'
        · exact hcur
        · exact hall x hx'
      · rcases hstruct with heq | ⟨l1, l2, hsplit, hlt2, hl1⟩
        · right
          refine ⟨[], rest, ?_, ?_, fun x hx => absurd hx (List.not_mem_nil x)⟩
          · rw [heq]; simp
          · rw [heq]; exact hlt
        · right
          refine ⟨q :: l1, l2, ?_, lt_trans hlt hlt2, ?_⟩
          · rw [List.cons_append, ← hsplit]
          · intro x hx
            rcases List.mem_cons.mp hx with rfl | hx'
            · exact hlt2
            · exact hl1 x hx'
    · have hcomp : pyGo cur (q :: rest) = pyGo cur rest := by simp [pyGo, hlt]
      obtain ⟨hall, hcur, hstruct⟩ := ih cur
      rw [hcomp]
      refine ⟨?_, hcur, ?_⟩
      · intro x hx
        rcases List.mem_cons.mp hx with rfl | hx'
        · exact le_trans (Nat.le_of_not_lt hlt) hcur
        · exact hall x hx'
      · rcases hstruct with heq | ⟨l1, l2, hsplit, hlt2, hl1⟩
        · left; exact heq
        · right
          refine ⟨q :: l1, l2, ?_, hlt2, ?_⟩
          · rw [List.cons_append, ← hsplit]
          · intro x hx
            rcases List.mem_cons.mp hx with rfl | hx'
            · exact lt_of_le_of_lt (Nat.le_of_not_lt hlt) hlt2
            · exact hl1 x hx'

/-- `max(d, key=d.get)` returns the first entry attaining the maximal value:
every entry strictly before it has a strictly smaller value, every entry at
all has a value no larger. -/
theorem pyMax_spec (l : List (α × Nat)) (h : l ≠ []) :
    ∃ l1 r l2, l = l1 ++ r :: l2 ∧ pyMax l = some r ∧
      (∀ x ∈ l1, x.2 < r.2) ∧ (∀ x ∈ l, x.2 ≤ r.2) := by
  match l, h with
  | p :: rest, _ =>
    obtain ⟨hall, hcur, hstruct⟩ := pyGo_spec rest p
    have hmax : pyMax (p :: rest) = some (pyGo p rest) := rfl
    have hallcons : ∀ x ∈ p :: rest, x.2 ≤ (pyGo p rest).2 := by
      intro x hx
      rcases List.mem_cons.mp hx with rfl | hx'
      · exact hcur
      · exact hall x hx'
    rcases hstruct with heq | ⟨l1, l2, hsplit, hlt, hl1⟩
    · refine ⟨[], pyGo p rest, rest, ?_, hmax, fun x hx => absurd hx (List.not_mem_nil x),
        hallcons⟩
      rw [heq]
      simp
    · refine ⟨p :: l1, pyGo p rest, l2, ?_, hmax, ?_, hallcons⟩
      · rw [List.cons_append, ← hsplit]
      · intro x hx
        rcases List.mem_cons.mp hx with rfl | hx'
        · exact hlt
        · exact hl1 x hx'

theorem map_split_cons {β : Type*} {f : α → β} {l : List α} {L1 : List β} {r : β}
    {L2 : List β} (h : l.map f = L1 ++ r :: L2) :
    ∃ u1 x u2, l = u1 ++ x :: u2 ∧ u1.map f = L1 ∧ f x = r := by
  obtain ⟨u1, u2', hl, h1, h2⟩ := List.map_eq_append_iff.mp h
  obtain ⟨x, u2, hu2, hx, _⟩ := List.map_eq_cons_iff.mp h2
  exact ⟨u1, x, u2, by rw [hl, hu2], h1, hx⟩

end PyMaxFacts

/-- `max(emotion_counts, key=emotion_counts.get)` picks an emotion of maximal
count; on ties, the one whose first occurrence is earliest in the record
set. -/
theorem mostCommon_spec {α : Type*} [DecidableEq α] (es : List α) (h : es ≠ []) :
    ∃ m, pyMax (emotionCounts es) = some (m, es.count m) ∧ m ∈ es ∧
      (∀ e ∈ es, es.count e ≤ es.count m) ∧
      (∀ e ∈ es, es.count e = es.count m → es.indexOf m ≤ es.indexOf e) := by
  have hEC := emotionCounts_eq es
  have hune : uniqLeft es ≠ [] := by
    cases es with
    | nil => exact absurd rfl h
    | cons a t => simp [uniqLeft]
  have hECne : emotionCounts es ≠ [] := by
    rw [hEC]
    simpa using hune
  obtain ⟨L1, r, L2, hsplit, hmax, hL1, hall⟩ := pyMax_spec _ hECne
  rw [hEC] at hsplit
  obtain ⟨u1, m, u2, huL, hu1, hfm⟩ := map_split_cons hsplit
  have hfm' : (m, es.count m) = r := hfm
  have hmem_uL : m ∈ uniqLeft es := by rw [huL]; simp
  have hmes : m ∈ es := (mem_uniqLeft m es).mp hmem_uL
  refine ⟨m, ?_, hmes, ?_, ?_⟩
  · rw [hmax, ← hfm']
  · intro e he
    have heu : e ∈ uniqLeft es := (mem_uniqLeft e es).mpr he
    have hmem : (e, es.count e) ∈ emotionCounts es := by
      rw [hEC]
      exact List.mem_map_of_mem _ heu
    have hb := hall _ hmem
    rw [← hfm'] at hb
    simpa using hb
  · intro e he heq2
    have heu : e ∈ uniqLeft es := (mem_uniqLeft e es).mpr he
    rw [huL] at heu
    rcases List.mem_append.mp heu with h1 | h2
    · exfalso
      have hin : (e, es.count e) ∈ L1 := by
        rw [← hu1]
        exact List.mem_map_of_mem _ h1
      have hlt := hL1 _ hin
      rw [← hfm'] at hlt
      simp at hlt
      omega
    · rcases List.mem_cons.mp h2 with rfl | h3
      · exact le_refl _
      · have hP := uniqLeft_pairwise es
        rw [huL] at hP
        have hP2 := (List.pairwise_append.mp hP).2.1
        exact le_of_lt ((List.pairwise_cons.mp hP2).1 e h3)

/-- C2: for every non-empty record set, the MostCommon branch answers with an
emotion of maximal count (ties going to the emotion whose first occurrence is
earliest in the set) and renders exactly that emotion and count; over
`[happy, happy, happy, sad, sad]` the answer names "happy" and the count 3. -/
theorem most_common_branch_correct (metas : List MoodRecord) (h : metas ≠ []) :
    (∃ m, pyMax (emotionCounts (emotionsOf metas)) =
        some (m, (emotionsOf metas).count m) ∧
      m ∈ emotionsOf metas ∧
      (∀ e ∈ emotionsOf metas,
        (emotionsOf metas).count e ≤ (emotionsOf metas).count m) ∧
      (∀ e ∈ emotionsOf metas,
        (emotionsOf metas).count e = (emotionsOf metas).count m →
          (emotionsOf metas).indexOf m ≤ (emotionsOf metas).indexOf e) ∧
      ansMostCommon metas =
        "Based on the records, '" ++ m ++ "' is the most common emotion, appearing "
          ++ toString ((emotionsOf metas).count m) ++ " times in relevant data.") ∧
    ansMostCommon records32 =
      "Based on the records, 'happy' is the most common emotion, appearing 3 times in relevant data." := by
  refine ⟨?_, by decide⟩
  have hne : emotionsOf metas ≠ [] := by
    cases metas with
    | nil => exact absurd rfl h
    | cons a t => simp [emotionsOf]
  obtain ⟨m, hmax, hmem, hle, htie⟩ := mostCommon_spec (emotionsOf metas) hne
  refine ⟨m, hmax, hmem, hle, htie, ?_⟩
  simp [ansMostCommon, hmax]

theorem sum_map_cast_div_mul (l : List (String × Nat)) (n : ℚ) :
    (l.map (fun p => (p.2 : ℚ) / n * 100)).sum = ((l.map Prod.snd).sum : ℚ) / n * 100 := by
  induction l with
  | nil => simp
  | cons p t ih =>
    simp only [List.map_cons, List.sum_cons, ih]
    push_cast
    ring

/-- C4: on a non-empty cache, `get_emotion_stats` produces a per-emotion
percentage distribution summing to exactly 100 (hence within 0.01); on the
empty cache it produces the empty mapping (`{}`, modelled `none`). -/
theorem emotion_stats_percentages_sum (cache : List MoodRecord) (h : cache ≠ []) :
    (∃ s, getEmotionStats cache = some s ∧
      (s.emotion_distribution.map Prod.snd).sum = 100 ∧
      |(s.emotion_distribution.map Prod.snd).sum - 100| ≤ 1 / 100) ∧
    getEmotionStats ([] : List MoodRecord) = none := by
  refine ⟨?_, by simp [getEmotionStats]⟩
  have hne : ¬ cache.isEmpty = true := by
    simp only [List.isEmpty_iff]
    exact h
  have hlen : (cache.length : ℚ) ≠ 0 := by
    simpa using h
  refine ⟨{ total_records := cache.length
            emotion_counts := emotionCounts (emotionsOf cache)
            emotion_distribution := (emotionCounts (emotionsOf cache)).map
              (fun p => (p.1, (p.2 : ℚ) / cache.length * 100))
            average_confidence := (emotionCounts (emotionsOf cache)).map
              (fun p => (p.1,
                qget (cache.foldl (fun d r => bumpBy d r.emotion r.confidence) []) p.1
                  / (p.2 : ℚ)))
            most_common := (pyMax (emotionCounts (emotionsOf cache))).map Prod.fst },
    by simp [getEmotionStats, hne], ?_, ?_⟩
  · show (((emotionCounts (emotionsOf cache)).map
        (fun p => (p.1, (p.2 : ℚ) / cache.length * 100))).map Prod.snd).sum = 100
    rw [List.map_map]
    have heq : (Prod.snd ∘ fun p : String × Nat => (p.1, (p.2 : ℚ) / cache.length * 100)) =
        (fun p : String × Nat => (p.2 : ℚ) / cache.length * 100) := rfl
    rw [heq, sum_map_cast_div_mul, sum_snd_emotionCounts]
    rw [show (emotionsOf cache).length = cache.length from by simp [emotionsOf]]
    rw [div_self hlen]
    norm_num
  · show |(((emotionCounts (emotionsOf cache)).map
        (fun p => (p.1, (p.2 : ℚ) / cache.length * 100))).map Prod.snd).sum - 100| ≤ 1 / 100
    rw [List.map_map]
    have heq : (Prod.snd ∘ fun p : String × Nat => (p.1, (p.2 : ℚ) / cache.length * 100)) =
        (fun p : String × Nat => (p.2 : ℚ) / cache.length * 100) := rfl
    rw [heq, sum_map_cast_div_mul, sum_snd_emotionCounts]
    rw [show (emotionsOf cache).length = cache.length from by simp [emotionsOf]]
    rw [div_self hlen]
    norm_num

/-- Witness for C4 at the `[happy×3, sad×2]` record set. -/
theorem emotion_stats_percentages_sum_witness :
    records32 ≠ [] ∧
    ((∃ s, getEmotionStats records32 = some s ∧
      (s.emotion_distribution.map Prod.snd).sum = 100 ∧
      |(s.emotion_distribution.map Prod.snd).sum - 100| ≤ 1 / 100) ∧
    getEmotionStats ([] : List MoodRecord) = none) :=
  ⟨by decide, emotion_stats_percentages_sum records32 (by decide)⟩

/-- Witness for C2 at the spec's `[happy×3, sad×2]` record set. -/
theorem most_common_branch_correct_witness :
    records32 ≠ [] ∧
    ((∃ m, pyMax (emotionCounts (emotionsOf records32)) =
        some (m, (emotionsOf records32).count m) ∧
      m ∈ emotionsOf records32 ∧
      (∀ e ∈ emotionsOf records32,
        (emotionsOf records32).count e ≤ (emotionsOf records32).count m) ∧
      (∀ e ∈ emotionsOf records32,
        (emotionsOf records32).count e = (emotionsOf records32).count m →
          (emotionsOf records32).indexOf m ≤ (emotionsOf records32).indexOf e) ∧
      ansMostCommon records32 =
        "Based on the records, '" ++ m ++ "' is the most common emotion, appearing "
          ++ toString ((emotionsOf records32).count m) ++ " times in relevant data.") ∧
    ansMostCommon records32 =
      "Based on the records, 'happy' is the most common emotion, appearing 3 times in relevant data.") :=
  ⟨by decide, most_common_branch_correct records32 (by decide)⟩

/-- C1: intent classification follows the fixed priority order MostCommon,
Recent, Pattern, SpecificEmotion, GeneralMood, Negative, GroupHealth, Generic
with first match winning (`classify`, read off the source's `if/elif` chain,
coincides with the spec's ordered-family first-match table `classifySpec` on
every question); in particular a question containing both a MostCommon
keyword and a Recent keyword is classified `MostCommon`. -/
theorem classify_priority_order (q : String) :
    classify q = classifySpec q ∧
    (containsAny (lowerAscii q) mostCommonKeywords = true →
      containsAny (lowerAscii q) recentKeywords = true →
      classify q = Intent.mostCommon) := by
  refine ⟨?_, fun hm _hr => by simp [classify, hm]⟩
  simp only [classify, classifySpec, intentFamilies]
  by_cases h1 : containsAny (lowerAscii q) mostCommonKeywords = true
  · simp [List.find?, h1]
  · by_cases h2 : containsAny (lowerAscii q) recentKeywords = true
    · simp [List.find?, h1, h2]
    · by_cases h3 : containsAny (lowerAscii q) patternKeywords = true
      · simp [List.find?, h1, h2, h3]
      · by_cases h4 : containsAny (lowerAscii q) knownEmotions = true
        · simp [List.find?, h1, h2, h3, h4]
        · by_cases h5 : containsAny (lowerAscii q) generalMoodKeywords = true
          · simp [List.find?, h1, h2, h3, h4, h5]
          · by_cases h6 : containsAny (lowerAscii q) negativeKeywords = true
            · simp [List.find?, h1, h2, h3, h4, h5, h6]
            · by_cases h7 : containsAny (lowerAscii q) groupHealthKeywords = true
              · simp [List.find?, h1, h2, h3, h4, h5, h6, h7]
              · simp [List.find?, h1, h2, h3, h4, h5, h6, h7]

/-- Witness for C1 at the spec's own test question. -/
theorem classify_priority_order_witness :
    (containsAny (lowerAscii "What is the most frequent recent mood?")
        mostCommonKeywords = true ∧
      containsAny (lowerAscii "What is the most frequent recent mood?")
        recentKeywords = true) ∧
    classify "What is the most frequent recent mood?" = Intent.mostCommon :=
  ⟨⟨by decide, by decide⟩,
    (classify_priority_order "What is the most frequent recent mood?").2
      (by decide) (by decide)⟩

section SortFacts

variable {α : Type*} {β : Type*} [LinearOrder β]

theorem mem_insertDesc (x p : α × β) (l : List (α × β)) :
    x ∈ insertDesc p l ↔ x = p ∨ x ∈ l := by
  induction l with
  | nil => simp [insertDesc]
  | cons q rest ih =>
    by_cases hq : q.2 < p.2
    · simp [insertDesc, hq]
    · simp only [insertDesc, if_neg hq, List.mem_cons, ih]
      tauto

theorem mem_sortDesc (x : α × β) (l : List (α × β)) :
    x ∈ sortDesc l ↔ x ∈ l := by
  suffices h : ∀ acc, x ∈ l.foldl (fun acc p => insertDesc p acc) acc ↔ x ∈ acc ∨ x ∈ l by
    simpa [sortDesc] using h []
  induction l with
  | nil => intro acc; simp
  | cons p rest ih =>
    intro acc
    rw [List.foldl_cons, ih (insertDesc p acc)]
    simp only [mem_insertDesc, List.mem_cons]
    tauto

end SortFacts

theorem barApi_length (pct : ℚ) :
    (barApi pct).length = min (Int.toNat ⌊pct / 3⌋) 20 := by
  simp [barApi, String.length]

theorem barEnh_length (pct : ℚ) :
    (barEnh pct).length = Int.toNat ⌊pct / 5⌋ := by
  simp [barEnh, String.length]

theorem count_of_mem_emotionCounts {α : Type*} [DecidableEq α] {e : α} {c : ℕ}
    {es : List α} (h : (e, c) ∈ emotionCounts es) : c = es.count e := by
  rw [emotionCounts_eq] at h
  obtain ⟨u, hu, heq⟩ := List.mem_map.mp h
  obtain ⟨rfl, rfl⟩ : u = e ∧ es.count u = c := by
    simpa [Prod.ext_iff] using heq
  rfl

/-- C3 counterexample: with a non-empty prior cache and a failing store read,
`EmotionRAG.build_from_database` keeps the cache but reports `True` (the
source comment says "Still return True since we have cache"), so it does not
report zero new events; `EnhancedEmotionRAG.build_from_database` reports
`False` but clears the cache, so the previous cache is not left unchanged.
Both refute the claim's conjunction at this concrete input. -/
theorem rebuild_store_failure_counterexample :
    (buildApi (Except.error ()) ⟨[happyRec]⟩).1 = ⟨[happyRec]⟩ ∧
    (buildApi (Except.error ()) ⟨[happyRec]⟩).2 = true ∧
    (buildEnh (Except.error ()) ⟨[happyRec]⟩).1 = ⟨[]⟩ ∧
    (buildEnh (Except.error ()) ⟨[happyRec]⟩).2 = false := by
  refine ⟨rfl, by decide, rfl, rfl⟩

/-- C3 amended: on a failing store read neither rebuild raises (both are
total); `EmotionRAG.build_from_database` leaves the previous cache unchanged
and returns `True` exactly when that retained cache is non-empty (a falsy
result only from an empty cache), while `EnhancedEmotionRAG`'s rebuild clears
the cache and returns `False`. -/
theorem rebuild_store_failure_behavior (st : RagState) :
    (buildApi (Except.error ()) st).1 = st ∧
    ((buildApi (Except.error ()) st).2 = true ↔ st.cache ≠ []) ∧
    buildEnh (Except.error ()) st = (⟨[]⟩, false) := by
  refine ⟨rfl, ?_, rfl⟩
  simp [buildApi, List.length_pos]

/-- C10: with a fixed store, rebuilding twice is idempotent: the second
rebuild reproduces the first's state (and result), so any fixed question is
answered identically after either call. -/
theorem rebuild_idempotent (db : StoreRead) (st : RagState) :
    buildApi db (buildApi db st).1 = buildApi db st ∧
    (∀ q uid, queryApi db ((buildApi db (buildApi db st).1).1) q uid =
      queryApi db ((buildApi db st).1) q uid) := by
  have h : buildApi db (buildApi db st).1 = buildApi db st := by
    match db with
    | .ok recs =>
      by_cases hr : recs.isEmpty = true
      · simp [buildApi, hr]
      · simp [buildApi, hr]
    | .error u => simp [buildApi]
  exact ⟨h, fun q uid => by rw [h]⟩

/-- C5: a query finding the cache empty performs exactly one implicit rebuild
before answering; when that rebuild yields zero events (empty store or
failing read), the call returns the defined "no data" answer string rather
than raising (the model is total). -/
theorem query_implicit_rebuild (db : StoreRead) (st : RagState) (q : String)
    (uid : Option String) (h : st.cache = []) :
    (queryApi db st q uid).rebuilds = 1 ∧
    ((db = Except.ok [] ∨ db = Except.error ()) →
      (queryApi db st q uid).answer = msgNotAvailable) := by
  have hempty : st.cache.isEmpty = true := by simp [h]
  constructor
  · simp [queryApi, hempty, apply_ite QueryOutcome.rebuilds]
  · rintro (rfl | rfl)
    · simp [queryApi, hempty, buildApi]
    · simp [queryApi, hempty, buildApi, h]

/-- Witness for C5: empty cache, empty store. -/
theorem query_implicit_rebuild_witness :
    (⟨[]⟩ : RagState).cache = [] ∧
    (queryApi (Except.ok []) ⟨[]⟩ "any question" none).rebuilds = 1 ∧
    (queryApi (Except.ok []) ⟨[]⟩ "any question" none).answer = msgNotAvailable :=
  ⟨rfl, (query_implicit_rebuild (Except.ok []) ⟨[]⟩ "any question" none rfl).1,
    (query_implicit_rebuild (Except.ok []) ⟨[]⟩ "any question" none rfl).2 (Or.inl rfl)⟩

/-- C6: with a non-empty cache and an actor filter matching no cached record,
query returns the actor-specific "no data" message — distinct from both
global "no data" messages — and does not fall back to the unfiltered set. -/
theorem query_actor_filter_no_data (db : StoreRead) (st : RagState) (q : String)
    (uid : String) (h : st.cache ≠ []) (hmatch : ∀ r ∈ st.cache, r.user_id ≠ uid) :
    (queryApi db st q (some uid)).answer = msgNoUser uid ∧
    msgNoUser uid ≠ msgNoData ∧
    msgNoUser uid ≠ msgNotAvailable := by
  refine ⟨?_, ?_, ?_⟩
  · have hempty : ¬ st.cache.isEmpty = true := by
      simp only [List.isEmpty_eq_true]
      exact h
    have hfilter : st.cache.filter (fun r => r.user_id == uid) = [] := by
      rw [List.filter_eq_nil_iff]
      intro r hr
      simpa using hmatch r hr
    simp [queryApi, hempty, queryBody, hfilter]
  · intro hc
    have h1 : (msgNoUser uid).data.head? = some 'N' := by
      show (("No emotion data found for user " ++ uid ++ ".").data).head? = some 'N'
      rw [String.data_append, String.data_append]
      rfl
    rw [hc] at h1
    exact absurd h1 (by decide)
  · intro hc
    have h1 : (msgNoUser uid).data.head? = some 'N' := by
      show (("No emotion data found for user " ++ uid ++ ".").data).head? = some 'N'
      rw [String.data_append, String.data_append]
      rfl
    rw [hc] at h1
    exact absurd h1 (by decide)

/-- Witness for C6: one cached record, a filter matching nobody. -/
theorem query_actor_filter_no_data_witness :
    ((⟨[happyRec]⟩ : RagState).cache ≠ [] ∧
      (∀ r ∈ (⟨[happyRec]⟩ : RagState).cache, r.user_id ≠ "nobody")) ∧
    ((queryApi (Except.ok [happyRec]) ⟨[happyRec]⟩ "How is the team?"
        (some "nobody")).answer = msgNoUser "nobody" ∧
      msgNoUser "nobody" ≠ msgNoData ∧
      msgNoUser "nobody" ≠ msgNotAvailable) :=
  ⟨⟨by decide, by decide⟩,
    query_actor_filter_no_data (Except.ok [happyRec]) ⟨[happyRec]⟩ "How is the team?"
      "nobody" (by decide) (by decide)⟩

/-- C7: on the two-record newest-first store
`[happy@2025-01-05, sad@2025-01-01]`, the api_server Recent branch answers
with the first (most recent) record as the claim states, but
`EnhancedEmotionRAG.query_rule_based` answers with `records_cache[-1]` — the
last, hence oldest, record — while labelling it "most recent": the code
contradicts its own output text. -/
theorem recent_branch_failing_input :
    (queryApi (Except.ok newestFirst) ⟨newestFirst⟩ "recent mood" none).answer =
      "The most recent emotion detected was 'happy' at 2025-01-05 10:00:00." ∧
    queryEnh newestFirst "recent mood" =
      "The most recent emotion detected was 'sad' for u2 at 2025-01-01T09:00:00." := by
  exact ⟨by decide, by decide⟩

/-- C8 counterexample: the empty question does not raise a caller-visible
error — no branch of `query` validates the question, so `""` matches no
keyword family, is classified Generic, and receives the ordinary generic
answer over the cache. -/
theorem query_empty_question_counterexample :
    (queryApi (Except.ok [happyRec]) ⟨[happyRec]⟩ "" none).answer =
      "Based on relevant emotion records: happy (1x). The dominant emotion in this context is happy." ∧
    classify "" = Intent.generic := by
  exact ⟨by decide, by decide⟩

/-- C8 amended: query never raises for any question and any data state: over
a non-empty cache every question — the empty string included — flows through
the total pipeline and returns the classified branch's answer string. -/
theorem query_never_raises (db : StoreRead) (st : RagState) (q : String)
    (h : st.cache ≠ []) :
    queryApi db st q none = ⟨st, answerFor q st.cache, 0⟩ := by
  have hempty : ¬ st.cache.isEmpty = true := by
    simp only [List.isEmpty_eq_true]
    exact h
  simp [queryApi, hempty, queryBody]

/-- Witness for C8 at the empty question. -/
theorem query_never_raises_witness :
    (⟨[happyRec]⟩ : RagState).cache ≠ [] ∧
    queryApi (Except.ok [happyRec]) ⟨[happyRec]⟩ "" none =
      ⟨⟨[happyRec]⟩, answerFor "" [happyRec], 0⟩ :=
  ⟨by decide, query_never_raises (Except.ok [happyRec]) ⟨[happyRec]⟩ "" (by decide)⟩

/-- C9 counterexample: over ten records (3 happy, 7 sad), rag_enhanced's
report has entries at 70% and 30% whose bars are 14 and 6 characters
(`"█" * int(pct / 5)`), not the claimed `min(floor(pct / 3), 20)` = 20 and
10. -/
theorem bar_length_enh_counterexample :
    (insightsDistEnh records37).map (fun l => (l.pct, l.bar.length)) =
      [((70 : ℚ), 14), ((30 : ℚ), 6)] ∧
    14 ≠ min (Int.toNat ⌊(70 : ℚ) / 3⌋) 20 ∧
    6 ≠ min (Int.toNat ⌊(30 : ℚ) / 3⌋) 20 := by
  refine ⟨?_, ?_, ?_⟩
  · have hne : ("happy" : String) ≠ "sad" := by decide
    simp only [insightsDistEnh, records37, happyRec, sadRec, emotionsOf, emotionCounts,
      bump, sortDesc, insertDesc, barEnh, List.replicate, List.foldl, List.map,
      List.append_eq, List.cons_append, List.nil_append, List.length_cons, List.length_nil]
    norm_num [hne]
    decide
  · rw [show (⌊(70 : ℚ) / 3⌋) = 23 from by norm_num]
    decide
  · rw [show (⌊(30 : ℚ) / 3⌋) = 10 from by norm_num]
    decide

/-- C9 amended: every entry of the api_server report renders a bar of
`min(floor(pct / 3), 20)` characters, where the entry's percentage is its
count over the record total times 100 — 10 characters at 30%, 20 characters
(capped) at 70% — while every entry of the rag_enhanced report renders a bar
of `floor(pct / 5)` characters, uncapped — 6 characters at 30%, 14 at 70%. -/
theorem bar_length_behavior :
    (∀ records : List MoodRecord,
      (insightsDistApi records).map (fun l => l.bar.length) =
        (insightsDistApi records).map (fun l => min (Int.toNat ⌊l.pct / 3⌋) 20) ∧
      (insightsDistApi records).map (fun l => l.pct) =
        (insightsDistApi records).map
          (fun l => (l.count : ℚ) / records.length * 100) ∧
      (insightsDistApi records).map (fun l => l.count) =
        (insightsDistApi records).map
          (fun l => (emotionsOf records).count l.emotion)) ∧
    (∀ records : List MoodRecord,
      (insightsDistEnh records).map (fun l => l.bar.length) =
        (insightsDistEnh records).map (fun l => Int.toNat ⌊l.pct / 5⌋)) ∧
    (insightsDistApi records37).map (fun l => (l.emotion, l.pct, l.bar.length)) =
      [("sad", (70 : ℚ), 20), ("happy", (30 : ℚ), 10)] ∧
    (insightsDistEnh records37).map (fun l => (l.emotion, l.pct, l.bar.length)) =
      [("sad", (70 : ℚ), 14), ("happy", (30 : ℚ), 6)] := by
  refine ⟨?_, ?_, ?_, ?_⟩
  · intro records
    refine ⟨?_, ?_, ?_⟩
    · apply List.map_congr_left
      intro l hl
      simp only [insightsDistApi] at hl
      obtain ⟨p, _, rfl⟩ := List.mem_map.mp hl
      exact barApi_length _
    · apply List.map_congr_left
      intro l hl
      simp only [insightsDistApi] at hl
      obtain ⟨p, _, rfl⟩ := List.mem_map.mp hl
      rfl
    · apply List.map_congr_left
      intro l hl
      simp only [insightsDistApi] at hl
      obtain ⟨p, hp, rfl⟩ := List.mem_map.mp hl
      show p.2 = (emotionsOf records).count p.1
      have hmem : (p.1, p.2) ∈ emotionCounts (emotionsOf records) := by
        have := (mem_sortDesc p _).mp hp
        simpa using this
      exact count_of_mem_emotionCounts hmem
  · intro records
    apply List.map_congr_left
    intro l hl
    simp only [insightsDistEnh] at hl
    obtain ⟨p, _, rfl⟩ := List.mem_map.mp hl
    exact barEnh_length _
  · have hne : ("happy" : String) ≠ "sad" := by decide
    simp only [insightsDistApi, records37, happyRec, sadRec, emotionsOf, emotionCounts,
      bump, sortDesc, insertDesc, barApi, List.replicate, List.foldl, List.map,
      List.append_eq, List.cons_append, List.nil_append, List.length_cons, List.length_nil]
    norm_num [hne]
    decide
  · have hne : ("happy" : String) ≠ "sad" := by decide
    simp only [insightsDistEnh, records37, happyRec, sadRec, emotionsOf, emotionCounts,
      bump, sortDesc, insertDesc, barEnh, List.replicate, List.foldl, List.map,
      List.append_eq, List.cons_append, List.nil_append, List.length_cons, List.length_nil]
    norm_num [hne]
    decide

end MoodRAG
